import Mathlib

set_option maxRecDepth 100000

/-!
Verification of the pymerger merge engine.

The development shallowly embeds the repository's core (`pymerger.py`,
`assemblers.py`, `datatypes.py`): the document data model, the
sequence-to-map conversion, the recursive merge, the reconstruction pass,
and the two concrete assemblers.  Python dicts are modelled as ordered
association lists with unique keys, Python strings as Lean strings, and
the SHA-256 digests used for identity tokens are computed by a concrete
SHA-256 implementation over natural numbers (so the concrete examples
evaluate inside the kernel).
-/

/-- Model of `datatypes.DataTypes`: a YAML/JSON-like value.  Python dicts are
insertion-ordered maps modelled as association lists, Python lists as `seq`,
`None` as `none`.  The `float` member of the union is omitted: no claim
involves floating-point values and `Float` has no decidable equality. -/
inductive Doc where
  | none : Doc
  | bool (b : Bool) : Doc
  | int (n : Int) : Doc
  | str (s : String) : Doc
  | seq (items : List Doc) : Doc
  | map (entries : List (String × Doc)) : Doc

/-- Python truthiness (`if obj:`): `None`, `False`, `0`, the empty string and
empty collections are falsy, everything else is truthy. -/
def py_truthy : Doc → Bool
  | .none => false
  | .bool b => b
  | .int n => n != 0
  | .str s => s != ""
  | .seq items => !items.isEmpty
  | .map es => !es.isEmpty

/-- The Python runtime type of a document, as returned by `type(obj)`.
`float` is omitted together with the `float` member of `Doc`. -/
inductive PyType where
  | dict : PyType
  | list : PyType
  | str : PyType
  | int : PyType
  | bool : PyType
  | noneType : PyType
deriving DecidableEq, Repr

/-- `type(obj)` on a document value. -/
def py_type : Doc → PyType
  | .none => .noneType
  | .bool _ => .bool
  | .int _ => .int
  | .str _ => .str
  | .seq _ => .list
  | .map _ => .dict

/-- Is the document a Python dict? -/
def is_dict : Doc → Bool
  | .map _ => true
  | _ => false

/-- `d[key]` on a dict: the value stored under `key` (first occurrence;
a Python dict has at most one). -/
def lookup_entry : List (String × Doc) → String → Option Doc
  | [], _ => Option.none
  | (k, v) :: rest, key => if k = key then some v else lookup_entry rest key

/-- `d.update({key: v})` on a dict: replace the value in place if the key is
present (keeping its position), otherwise append the new pair at the end.
This is exactly the insertion-order behaviour of a Python dict. -/
def dict_update (es : List (String × Doc)) (key : String) (v : Doc) :
    List (String × Doc) :=
  if (lookup_entry es key).isSome then
    es.map (fun p => if p.1 = key then (key, v) else p)
  else es ++ [(key, v)]

/-- The keys of a list are pairwise distinct (the invariant of a Python
dict's key sequence). -/
def keys_nodup : List String → Bool
  | [] => true
  | k :: rest => !(rest.contains k) && keys_nodup rest

/-- Hexadecimal digit characters, lowercase (as produced by `hexdigest`). -/
def hexChar (n : Nat) : Char :=
  match n with
  | 0 => '0' | 1 => '1' | 2 => '2' | 3 => '3'
  | 4 => '4' | 5 => '5' | 6 => '6' | 7 => '7'
  | 8 => '8' | 9 => '9' | 10 => 'a' | 11 => 'b'
  | 12 => 'c' | 13 => 'd' | 14 => 'e' | 15 => 'f'
  | _ => '0'

def squote : Char := Char.ofNat 39

def dquote : Char := Char.ofNat 34

/-- One character of a Python string repr, escaped as CPython escapes it
(`q` is the chosen quote character). -/
def py_repr_char (q : Char) (c : Char) : List Char :=
  if c = '\\' then ['\\', '\\']
  else if c = q then ['\\', q]
  else if c = '\n' then ['\\', 'n']
  else if c = '\r' then ['\\', 'r']
  else if c = '\t' then ['\\', 't']
  else if c.toNat < 32 || c.toNat = 127 then
    ['\\', 'x', hexChar (c.toNat / 16 % 16), hexChar (c.toNat % 16)]
  else [c]

/-- `repr` of a Python string: single-quoted, unless the string contains a
single quote and no double quote. -/
def py_repr_str (s : String) : String :=
  let q := if s.data.contains squote && !(s.data.contains dquote) then dquote else squote
  String.mk (q :: (s.data.map (py_repr_char q)).flatten ++ [q])

mutual

/-- `repr` of a document value, as CPython prints it (`str` and `repr`
coincide on dicts, lists, ints, bools and `None`). -/
def py_repr (d : Doc) : String :=
  match d with
  | .none => "None"
  | .bool b => if b then "True" else "False"
  | .int n => toString n
  | .str s => py_repr_str s
  | .seq items => "[" ++ py_repr_items items ++ "]"
  | .map es => "\x7b" ++ py_repr_entries es ++ "\x7d"
termination_by structural d

/-- Comma-separated reprs of the elements of a list. -/
def py_repr_items (items : List Doc) : String :=
  match items with
  | [] => ""
  | [d] => py_repr d
  | d :: rest => py_repr d ++ ", " ++ py_repr_items rest
termination_by structural items

/-- Comma-separated `key: value` reprs of the entries of a dict. -/
def py_repr_entries (es : List (String × Doc)) : String :=
  match es with
  | [] => ""
  | [(k, v)] => py_repr_str k ++ ": " ++ py_repr v
  | (k, v) :: rest => py_repr_str k ++ ": " ++ py_repr v ++ ", " ++ py_repr_entries rest
termination_by structural es

end

/-- `str(obj)` / `f'...'` formatting of a document: like `repr`, except that
a string formats as its own characters, unquoted. -/
def py_str : Doc → String
  | .str s => s
  | d => py_repr d

/-! ### SHA-256 over lists of byte values (each a `Nat` below 256) -/

/-- UTF-8 encoding of one character (Python strings are encoded with
`.encode('UTF-8')` before hashing). -/
def utf8Bytes (c : Char) : List Nat :=
  let n := c.toNat
  if n < 128 then [n]
  else if n < 2048 then [192 + n / 64, 128 + n % 64]
  else if n < 65536 then [224 + n / 4096, 128 + n / 64 % 64, 128 + n % 64]
  else [240 + n / 262144, 128 + n / 4096 % 64, 128 + n / 64 % 64, 128 + n % 64]

/-- UTF-8 bytes of a string. -/
def strBytes (s : String) : List Nat := (s.data.map utf8Bytes).flatten

/-- Right rotation of a 32-bit word (inputs are kept below `2 ^ 32`). -/
def rotr (n x : Nat) : Nat := ((x >>> n) ||| (x <<< (32 - n))) % 4294967296

def ssig0 (x : Nat) : Nat := (rotr 7 x) ^^^ (rotr 18 x) ^^^ (x >>> 3)

def ssig1 (x : Nat) : Nat := (rotr 17 x) ^^^ (rotr 19 x) ^^^ (x >>> 10)

def bsig0 (x : Nat) : Nat := (rotr 2 x) ^^^ (rotr 13 x) ^^^ (rotr 22 x)

def bsig1 (x : Nat) : Nat := (rotr 6 x) ^^^ (rotr 11 x) ^^^ (rotr 25 x)

def chOp (x y z : Nat) : Nat := (x &&& y) ^^^ ((x ^^^ 4294967295) &&& z)

def majOp (x y z : Nat) : Nat := (x &&& y) ^^^ (x &&& z) ^^^ (y &&& z)

/-- The 64 SHA-256 round constants. -/
def kConstants : List Nat :=
  [1116352408, 1899447441, 3049323471, 3921009573,
   961987163, 1508970993, 2453635748, 2870763221,
   3624381080, 310598401, 607225278, 1426881987,
   1925078388, 2162078206, 2614888103, 3248222580,
   3835390401, 4022224774, 264347078, 604807628,
   770255983, 1249150122, 1555081692, 1996064986,
   2554220882, 2821834349, 2952996808, 3210313671,
   3336571891, 3584528711, 113926993, 338241895,
   666307205, 773529912, 1294757372, 1396182291,
   1695183700, 1986661051, 2177026350, 2456956037,
   2730485921, 2820302411, 3259730800, 3345764771,
   3516065817, 3600352804, 4094571909, 275423344,
   430227734, 506948616, 659060556, 883997877,
   958139571, 1322822218, 1537002063, 1747873779,
   1955562222, 2024104815, 2227730452, 2361852424,
   2428436474, 2756734187, 3204031479, 3329325298]

/-- The eight 32-bit words of a SHA-256 state. -/
structure Hash8 where
  a : Nat
  b : Nat
  c : Nat
  d : Nat
  e : Nat
  f : Nat
  g : Nat
  h : Nat

/-- The SHA-256 initial hash value. -/
def initialHash : Hash8 :=
  ⟨1779033703, 3144134277, 1013904242, 2773480762,
   1359893119, 2600822924, 528734635, 1541459225⟩

/-- One SHA-256 compression round. -/
def roundStep (s : Hash8) (k : Nat) (w : Nat) : Hash8 :=
  let t1 := (s.h + bsig1 s.e + chOp s.e s.f s.g + k + w) % 4294967296
  let t2 := (bsig0 s.a + majOp s.a s.b s.c) % 4294967296
  ⟨(t1 + t2) % 4294967296, s.a, s.b, s.c, (s.d + t1) % 4294967296, s.e, s.f, s.g⟩

/-- SHA-256 message padding: a `0x80` byte, zeros to 56 mod 64, then the
bit length as eight big-endian bytes. -/
def sha256pad (msg : List Nat) : List Nat :=
  let len := msg.length
  let zeros := (119 - len % 64) % 64
  let bits := len * 8
  msg ++ [128] ++ List.replicate zeros 0 ++
    [bits / 72057594037927936 % 256, bits / 281474976710656 % 256,
     bits / 1099511627776 % 256, bits / 4294967296 % 256,
     bits / 16777216 % 256, bits / 65536 % 256, bits / 256 % 256, bits % 256]

/-- Big-endian 32-bit words from a list of bytes. -/
def bytesToWords : List Nat → List Nat
  | b0 :: b1 :: b2 :: b3 :: rest => (((b0 * 256 + b1) * 256 + b2) * 256 + b3) :: bytesToWords rest
  | _ => []

/-- Split a byte list into blocks of 64 (`cur` collects the current block in
reverse, `n` counts its length). -/
def chunks64Aux : List Nat → List Nat → Nat → List (List Nat)
  | [], cur, _ => if cur.isEmpty then [] else [cur.reverse]
  | b :: rest, cur, n =>
      if n = 63 then (b :: cur).reverse :: chunks64Aux rest [] 0
      else chunks64Aux rest (b :: cur) (n + 1)

def chunks64 (l : List Nat) : List (List Nat) := chunks64Aux l [] 0

/-- Extend a message schedule by one word. -/
def scheduleStep (w : List Nat) : List Nat :=
  w ++ [(ssig1 (w.getD (w.length - 2) 0) + w.getD (w.length - 7) 0 +
         ssig0 (w.getD (w.length - 15) 0) + w.getD (w.length - 16) 0) % 4294967296]

/-- Iterate `scheduleStep` (48 times to turn 16 words into 64). -/
def buildSchedule : List Nat → Nat → List Nat
  | w, 0 => w
  | w, n + 1 => buildSchedule (scheduleStep w) n

/-- Compress one 64-byte block into the running hash state. -/
def processBlock (s : Hash8) (block : List Nat) : Hash8 :=
  let w := buildSchedule (bytesToWords block) 48
  let t := (kConstants.zip w).foldl (fun st p => roundStep st p.1 p.2) s
  ⟨(s.a + t.a) % 4294967296, (s.b + t.b) % 4294967296, (s.c + t.c) % 4294967296,
   (s.d + t.d) % 4294967296, (s.e + t.e) % 4294967296, (s.f + t.f) % 4294967296,
   (s.g + t.g) % 4294967296, (s.h + t.h) % 4294967296⟩

/-- SHA-256 of a byte list, as the eight words of the final state. -/
def sha256words (msg : List Nat) : Hash8 :=
  (chunks64 (sha256pad msg)).foldl processBlock initialHash

/-- Eight lowercase hex digits of one 32-bit word. -/
def wordHexChars (w : Nat) : List Char :=
  [hexChar (w / 268435456 % 16), hexChar (w / 16777216 % 16), hexChar (w / 1048576 % 16),
   hexChar (w / 65536 % 16), hexChar (w / 4096 % 16), hexChar (w / 256 % 16),
   hexChar (w / 16 % 16), hexChar (w % 16)]

/-- The 64 hex digits of a SHA-256 state. -/
def hash8Hex (s : Hash8) : List Char :=
  wordHexChars s.a ++ wordHexChars s.b ++ wordHexChars s.c ++ wordHexChars s.d ++
  wordHexChars s.e ++ wordHexChars s.f ++ wordHexChars s.g ++ wordHexChars s.h

/-- `sha256(s.encode('UTF-8')).hexdigest()`. -/
def sha256hex (s : String) : String := String.mk (hash8Hex (sha256words (strBytes s)))

/-! ### Assemblers (`assemblers.py`) -/

/-- Model of `AbstractAssembler`: the strategy interface, a record of its
three operations (`converter`/`finder`/`handler`, the spec's
`convert`/`recognize`/`resolve`). -/
structure AbstractAssembler where
  converter : Doc → String → String
  finder : List String → Bool
  handler : Doc → Doc → Doc

def is_hex_digit (c : Char) : Bool := ('0' ≤ c && c ≤ '9') || ('a' ≤ c && c ≤ 'f')

/-- `re.match(r'^_[a-f0-9]{64}_$', s)` is not `None`: an underscore, exactly
64 lowercase hex digits, and a final underscore. -/
def token_match (s : String) : Bool :=
  match s.data with
  | '_' :: rest => rest.length = 65 && (rest.take 64).all is_hex_digit && rest.drop 64 = ['_']
  | _ => false

/-- `DefaultAssembler.converter`: the token is the SHA-256 hex digest of
`f'{data}+{path}'` wrapped in underscores. -/
def default_converter (data : Doc) (path : String) : String :=
  "_" ++ sha256hex (py_str data ++ "+" ++ path) ++ "_"

/-- `DefaultAssembler.finder`: every key matches the token pattern. -/
def default_finder (keys : List String) : Bool := keys.all token_match

/-- `DefaultAssembler.handler`: the second object if it is truthy, otherwise
the first. -/
def default_handler (obj1 obj2 : Doc) : Doc := if py_truthy obj2 then obj2 else obj1

def DefaultAssembler : AbstractAssembler :=
  ⟨default_converter, default_finder, default_handler⟩

/-- Python `path.split('/')` (on the character list, accumulating the
current segment in reverse). -/
def split_slash_aux : List Char → List Char → List String
  | [], cur => [String.mk cur.reverse]
  | c :: rest, cur =>
      if c = '/' then String.mk cur.reverse :: split_slash_aux rest []
      else split_slash_aux rest (c :: cur)

def split_slash (s : String) : List String := split_slash_aux s.data []

/-- Python `'/'.join(parts)`. -/
def join_slash : List String → String
  | [] => ""
  | [s] => s
  | s :: rest => s ++ "/" ++ join_slash rest

/-- `'/'.join(path.split('/')[0:-2]) + '/'` from
`UniqueRegexpAssembler.converter`: the path of the enclosing list. -/
def base_list_path (path : String) : String :=
  join_slash ((split_slash path).take ((split_slash path).length - 2)) ++ "/"

/-- `UniqueRegexpAssembler._get_unique_key_by_regexp_path`: the key of the
first configured pattern matching the path (a configured regular expression
is modelled as the predicate `String → Bool` it denotes). -/
def get_unique_key_by_regexp_path (keys_paths : List ((String → Bool) × String))
    (path : String) : Option String :=
  match keys_paths with
  | [] => Option.none
  | (pat, key) :: rest =>
      if pat path then some key else get_unique_key_by_regexp_path rest path

/-- `UniqueRegexpAssembler.converter`: if a configured pattern matches the
path and the element is a dict carrying the configured key, hash the key's
value together with the enclosing list's path; on a falsy configured key, a
non-dict element (`TypeError`) or a missing key (`KeyError`) fall back to
`DefaultAssembler.converter`. -/
def unique_regexp_converter (keys_paths : List ((String → Bool) × String))
    (data : Doc) (path : String) : String :=
  match get_unique_key_by_regexp_path keys_paths path with
  | some key =>
      if key = "" then default_converter data path
      else
        match data with
        | .map es =>
            match lookup_entry es key with
            | some v => "_" ++ sha256hex (py_str v ++ "+" ++ base_list_path path) ++ "_"
            | Option.none => default_converter data path
        | _ => default_converter data path
  | Option.none => default_converter data path

/-- `UniqueRegexpAssembler`: `finder` and `handler` are inherited from
`DefaultAssembler`, only `converter` is overridden. -/
def UniqueRegexpAssembler (keys_paths : List ((String → Bool) × String)) :
    AbstractAssembler :=
  ⟨unique_regexp_converter keys_paths, default_finder, default_handler⟩

/-- The predicate denoted by the regular expression `\/users\/.+` under
`re.match`: the literal prefix `/users/` followed by at least one
non-newline character. -/
def users_path_regexp (path : String) : Bool :=
  match path.data with
  | '/' :: 'u' :: 's' :: 'e' :: 'r' :: 's' :: '/' :: c :: _ => c != '\n'
  | _ => false

/-! ### The merge engine (`pymerger.py`) -/

/-- The synthetic path marker of the `i`-th list element: `f'{path}_{i}_/'`. -/
def item_path (path : String) (i : Nat) : String :=
  path ++ "_" ++ toString i ++ "_/"

mutual

/-- `_get_converted_data`: replace every list by a dict keyed by
strategy-generated tokens; dicts are rebuilt entry by entry via
`dict.update`, scalars are returned unchanged.  Python iterates
`data.keys()` and reads `data[key]`; since a dict's keys are unique this is
iteration over its key-value pairs in insertion order. -/
def get_converted_data (asm : AbstractAssembler) (data : Doc) (path : String) : Doc :=
  match data with
  | .map es => .map (convert_dict_entries asm path es [])
  | .seq items => .map (convert_list_items asm path items 0 [])
  | d => d
termination_by structural data

/-- The dict branch of `_get_converted_data`: fold `dict.update` over the
entries, converting each value under the extended path `f'{path}{key}/'`. -/
def convert_dict_entries (asm : AbstractAssembler) (path : String)
    (es : List (String × Doc)) (acc : List (String × Doc)) : List (String × Doc) :=
  match es with
  | [] => acc
  | (k, v) :: rest =>
      convert_dict_entries asm path rest
        (dict_update acc k (get_converted_data asm v (path ++ k ++ "/")))
termination_by structural es

/-- The list branch of `_get_converted_data`: fold `dict.update` over the
elements, keying each converted element by `assembler.converter`. -/
def convert_list_items (asm : AbstractAssembler) (path : String)
    (items : List Doc) (i : Nat) (acc : List (String × Doc)) : List (String × Doc) :=
  match items with
  | [] => acc
  | item :: rest =>
      convert_list_items asm path rest (i + 1)
        (dict_update acc (asm.converter item (item_path path i))
          (get_converted_data asm item (item_path path i)))
termination_by structural items

end

mutual

/-- `_get_regular_data`: a dict whose key set `assembler.finder` accepts is
rebuilt as a list of its reconstructed values (in insertion order, keys
discarded); any other dict keeps its keys with reconstructed values;
scalars are returned unchanged.  Python iterates `data.keys()` and reads
`data[key]`; since a dict's keys are unique this is iteration over its
key-value pairs in insertion order. -/
def get_regular_data (asm : AbstractAssembler) (data : Doc) : Doc :=
  match data with
  | .map es =>
      if asm.finder (es.map (fun p => p.1)) then .seq (regular_seq_values asm es)
      else .map (regular_dict_entries asm es)
  | d => d
termination_by structural data

/-- The recognized branch of `_get_regular_data`: append the reconstructed
values in order. -/
def regular_seq_values (asm : AbstractAssembler) (es : List (String × Doc)) : List Doc :=
  match es with
  | [] => []
  | (_, v) :: rest => get_regular_data asm v :: regular_seq_values asm rest
termination_by structural es

/-- The plain-dict branch of `_get_regular_data`: reconstruct every value,
keeping the keys. -/
def regular_dict_entries (asm : AbstractAssembler) (es : List (String × Doc)) :
    List (String × Doc) :=
  match es with
  | [] => []
  | (k, v) :: rest => (k, get_regular_data asm v) :: regular_dict_entries asm rest
termination_by structural es

end

mutual

/-- `_merge_converted_data`: two dicts merge by starting from a copy of the
first and folding `dict.update` over the second's entries (recursively
merging values under shared keys, inserting the second's value under fresh
keys); any other pair is delegated to `assembler.handler`. -/
def merge_converted_data (asm : AbstractAssembler) (obj1 obj2 : Doc) : Doc :=
  match obj1, obj2 with
  | .map es1, .map es2 => .map (merge_dict_entries asm es1 es1 es2)
  | o1, o2 => asm.handler o1 o2
termination_by structural obj2

/-- The dict-dict loop of `_merge_converted_data`: `es1` is the first dict
(consulted via `key in obj1_keys` and `obj1[key]`), `acc` the dict being
built (starting from a copy of `es1`), `rest2` the unprocessed entries of
the second dict. -/
def merge_dict_entries (asm : AbstractAssembler) (es1 acc rest2 : List (String × Doc)) :
    List (String × Doc) :=
  match rest2 with
  | [] => acc
  | (key, v2) :: rest =>
      match lookup_entry es1 key with
      | some v1 =>
          merge_dict_entries asm es1 (dict_update acc key (merge_converted_data asm v1 v2)) rest
      | Option.none => merge_dict_entries asm es1 (dict_update acc key v2) rest
termination_by structural rest2

end

/-- Modelled from the spec: the repository's `errors` module
(`AttributesError`, `AssemblerImplementationError`) is not under `src/`
(only its import sites are); the error classes are modelled as the distinct
kinds of the spec's failure taxonomy, carrying the data the Python messages
are built from.  `typeError` is the Python builtin `TypeError`. -/
inductive MergeError where
  | attributesError (objsCount : Nat) : MergeError
  | typeError (kinds : List PyType) : MergeError
  | assemblerImplementationError (methodName : String) (expected current : Nat) : MergeError
deriving DecidableEq, Repr

/-- `set(type(obj) for obj in objs if obj)` from `merge_data`, as the list
of distinct runtime types of the truthy documents in first-occurrence
order (only membership and cardinality of the set are consumed). -/
def distinct_py_types (objs : List Doc) : List PyType :=
  ((objs.filter py_truthy).map py_type).foldl
    (fun acc t => if acc.contains t then acc else acc ++ [t]) []

/-- `merge_data`: fewer than two documents raises `AttributesError`; more
than one distinct runtime type among the truthy documents raises
`TypeError` naming the types; otherwise the first document is converted and
each later one is converted and folded in by `_merge_converted_data`, and
the accumulator is reconstructed by `_get_regular_data`. -/
def merge_data (asm : AbstractAssembler) (objs : List Doc) : Except MergeError Doc :=
  if objs.length < 2 then .error (.attributesError objs.length)
  else if 1 < (distinct_py_types objs).length then
    .error (.typeError (distinct_py_types objs))
  else
    match objs with
    | [] => .error (.attributesError 0)
    | o :: rest =>
        .ok (get_regular_data asm
          (rest.foldl
            (fun acc obj => merge_converted_data asm acc (get_converted_data asm obj "/"))
            (get_converted_data asm o "/")))

/-- `AbstractAssembler._validate_methods_args`: compare a method's declared
argument count (Python's `method.__code__.co_argcount`, which counts
`self`) with the expected count and raise `AssemblerImplementationError` on
a mismatch. -/
def validate_methods_args (methodName : String) (currentArgsCount expected : Nat) :
    Except MergeError Unit :=
  if currentArgsCount ≠ expected then
    .error (.assemblerImplementationError methodName expected currentArgsCount)
  else .ok ()

/-- `AbstractAssembler.__init__`: validate the three methods' declared
argument counts (3, 2 and 3 including `self`).  Modelled from the spec:
Python's runtime arity reflection cannot be shallowly embedded, so a
concrete strategy implementation is represented by the three declared
argument counts of its methods. -/
def assembler_init_check (converterArgs finderArgs handlerArgs : Nat) :
    Except MergeError Unit :=
  match validate_methods_args "converter" converterArgs 3 with
  | .error e => .error e
  | .ok _ =>
      match validate_methods_args "finder" finderArgs 2 with
      | .error e => .error e
      | .ok _ => validate_methods_args "handler" handlerArgs 3

/-! ### Well-formedness predicates and spec-side definitions -/

/-- The tokens `_get_converted_data` generates for the elements of one
list, in order, starting at index `i`. -/
def item_tokens (asm : AbstractAssembler) (items : List Doc) (path : String) (i : Nat) :
    List String :=
  match items with
  | [] => []
  | item :: rest => asm.converter item (item_path path i) :: item_tokens asm rest path (i + 1)

mutual

/-- Every dict in the document has pairwise-distinct keys: the invariant of
any value produced by a Python parser (a Python dict cannot carry duplicate
keys). -/
def doc_wf (d : Doc) : Bool :=
  match d with
  | .map es => keys_nodup (es.map (fun p => p.1)) && entries_wf es
  | .seq items => items_wf items
  | _ => true
termination_by structural d

def entries_wf (es : List (String × Doc)) : Bool :=
  match es with
  | [] => true
  | (_, v) :: rest => doc_wf v && entries_wf rest
termination_by structural es

def items_wf (items : List Doc) : Bool :=
  match items with
  | [] => true
  | item :: rest => doc_wf item && items_wf rest
termination_by structural items

end

mutual

/-- The document contains no dict whose key set the assembler's `finder`
accepts (the claim's hypothesis for the round trip). -/
def no_recognized_map (asm : AbstractAssembler) (d : Doc) : Bool :=
  match d with
  | .map es => !(asm.finder (es.map (fun p => p.1))) && nrm_entries asm es
  | .seq items => nrm_items asm items
  | _ => true
termination_by structural d

def nrm_entries (asm : AbstractAssembler) (es : List (String × Doc)) : Bool :=
  match es with
  | [] => true
  | (_, v) :: rest => no_recognized_map asm v && nrm_entries asm rest
termination_by structural es

def nrm_items (asm : AbstractAssembler) (items : List Doc) : Bool :=
  match items with
  | [] => true
  | item :: rest => no_recognized_map asm item && nrm_items asm rest
termination_by structural items

end

mutual

/-- For every list in the document (descending from `path` exactly as the
conversion pass does), the tokens the assembler generates for its elements
are pairwise distinct.  This is the spec's "collision between tokens within
the same Map" side condition, which it assigns to the strategy. -/
def conv_tokens_ok (asm : AbstractAssembler) (d : Doc) (path : String) : Bool :=
  match d with
  | .map es => cto_entries asm es path
  | .seq items => keys_nodup (item_tokens asm items path 0) && cto_items asm items path 0
  | _ => true
termination_by structural d

def cto_entries (asm : AbstractAssembler) (es : List (String × Doc)) (path : String) : Bool :=
  match es with
  | [] => true
  | (k, v) :: rest => conv_tokens_ok asm v (path ++ k ++ "/") && cto_entries asm rest path
termination_by structural es

def cto_items (asm : AbstractAssembler) (items : List Doc) (path : String) (i : Nat) : Bool :=
  match items with
  | [] => true
  | item :: rest => conv_tokens_ok asm item (item_path path i) && cto_items asm rest path (i + 1)
termination_by structural items

end

/-- The dict branch of `_get_converted_data` in direct form: since the
source dict's keys are pairwise distinct, the `dict.update` fold appends one
converted entry per source entry, in order. -/
def conv_entries_direct (asm : AbstractAssembler) (path : String)
    (es : List (String × Doc)) : List (String × Doc) :=
  es.map (fun p => (p.1, get_converted_data asm p.2 (path ++ p.1 ++ "/")))

/-- The list branch of `_get_converted_data` in direct form: when the
generated tokens are pairwise distinct, the `dict.update` fold appends one
token-keyed converted element per list element, in order. -/
def conv_items_direct (asm : AbstractAssembler) (path : String) :
    List Doc → Nat → List (String × Doc)
  | [], _ => []
  | item :: rest, i =>
      (asm.converter item (item_path path i), get_converted_data asm item (item_path path i)) ::
        conv_items_direct asm path rest (i + 1)

/-- The value an entry `p` of the first dict carries after the
`_merge_converted_data` loop has processed the entries `rest2` of the
second dict: merged when `p`'s key is shared (looking the left value up in
`es1`), untouched when it is not. -/
def merge_entry_value (asm : AbstractAssembler) (es1 rest2 : List (String × Doc))
    (p : String × Doc) : String × Doc :=
  match lookup_entry rest2 p.1 with
  | some v2 =>
      match lookup_entry es1 p.1 with
      | some v1 => (p.1, merge_converted_data asm v1 v2)
      | Option.none => (p.1, v2)
  | Option.none => p

/-- The merged dict as claim C2 words it: the first dict's entries in their
original order, each value recursively merged with the second dict's value
when the key is shared; then the second dict's entries under fresh keys, in
the second dict's order, values unchanged. -/
def merge_spec_entries (asm : AbstractAssembler) (es1 es2 : List (String × Doc)) :
    List (String × Doc) :=
  es1.map (fun p => (p.1,
    match lookup_entry es2 p.1 with
    | some v2 => merge_converted_data asm p.2 v2
    | Option.none => p.2)) ++
  es2.filter (fun q => (lookup_entry es1 q.1).isNone)

/-- "Non-empty value" as claim C6 words it: non-null, non-empty-string,
non-zero-length collection, truthy scalar. -/
def spec_nonempty : Doc → Bool
  | .none => false
  | .str s => s.length != 0
  | .seq items => items.length != 0
  | .map es => es.length != 0
  | .bool b => b
  | .int n => n != 0

/-- The three document kinds as claim C3 words them: Map, Sequence, or the
scalar family. -/
inductive SpecKind where
  | kMap : SpecKind
  | kSeq : SpecKind
  | kScalar : SpecKind
deriving DecidableEq, Repr

def spec_kind : Doc → SpecKind
  | .map _ => .kMap
  | .seq _ => .kSeq
  | _ => .kScalar

/-- "Absent or empty" as claim C3 words it: `None`, the empty string, or an
empty collection. -/
def spec_absent_or_empty : Doc → Bool
  | .none => true
  | .str s => s.length = 0
  | .seq items => items.isEmpty
  | .map es => es.isEmpty
  | _ => false

/-- The distinct kinds (in claim C3's Map / Sequence / Scalar-family sense)
of the non-absent, non-empty documents, in first-occurrence order. -/
def distinct_spec_kinds (objs : List Doc) : List SpecKind :=
  ((objs.filter (fun d => !spec_absent_or_empty d)).map spec_kind).foldl
    (fun acc t => if acc.contains t then acc else acc ++ [t]) []

/-! ### Helper lemmas -/

theorem is_hex_digit_hexChar (n : Nat) : is_hex_digit (hexChar n) = true := by
  unfold hexChar
  split <;> decide

theorem wordHexChars_all_hex (w : Nat) : (wordHexChars w).all is_hex_digit = true := by
  simp [wordHexChars, is_hex_digit_hexChar]

theorem hash8Hex_all_hex (st : Hash8) : (hash8Hex st).all is_hex_digit = true := by
  simp [hash8Hex, List.all_append, wordHexChars_all_hex]

theorem wordHexChars_length (w : Nat) : (wordHexChars w).length = 8 := by
  simp [wordHexChars]

theorem hash8Hex_length (st : Hash8) : (hash8Hex st).length = 64 := by
  simp [hash8Hex, wordHexChars_length]

theorem sha256hex_data (s : String) :
    (sha256hex s).data = hash8Hex (sha256words (strBytes s)) := rfl

theorem underscore_wrap_data (s : String) :
    ("_" ++ s ++ "_").data = '_' :: (s.data ++ ['_']) := by
  simp [String.data_append]

theorem token_match_converter (data : Doc) (path : String) :
    token_match (default_converter data path) = true := by
  unfold default_converter token_match
  rw [underscore_wrap_data]
  have hlen := hash8Hex_length (sha256words (strBytes (py_str data ++ "+" ++ path)))
  rw [sha256hex_data]
  simp only [List.length_append, hlen, List.take_left' hlen, List.drop_left' hlen]
  simp [hash8Hex_all_hex]

theorem py_truthy_eq_spec_nonempty (d : Doc) : py_truthy d = spec_nonempty d := by
  cases d with
  | str s => rcases s with ⟨cs⟩; cases cs <;> rfl
  | seq items => cases items <;> rfl
  | map es => cases es <;> rfl
  | _ => rfl

theorem assembler_init_check_eq (c f h : Nat) :
    assembler_init_check c f h =
      if c ≠ 3 then .error (.assemblerImplementationError "converter" 3 c)
      else if f ≠ 2 then .error (.assemblerImplementationError "finder" 2 f)
      else if h ≠ 3 then .error (.assemblerImplementationError "handler" 3 h)
      else .ok () := by
  unfold assembler_init_check validate_methods_args
  split_ifs <;> simp_all

/-! ### Claim theorems -/

/-- C9: for every call to `merge_data` with fewer than two documents the
result is the `AttributesError` (the spec's `ArityError` class), for every
assembler alike — the error does not depend on the assembler or on any
conversion, so no conversion work is performed. -/
theorem merge_arity_guard (asm : AbstractAssembler) (objs : List Doc)
    (h : objs.length < 2) :
    merge_data asm objs = .error (.attributesError objs.length) := by
  unfold merge_data
  rw [if_pos h]

theorem merge_arity_guard_witness :
    merge_data DefaultAssembler [] = .error (.attributesError 0) :=
  merge_arity_guard DefaultAssembler [] (by decide)

/-- C4: with the Keyed Strategy (`UniqueRegexpAssembler`) configured to key
paths matching `\/users\/.+` by `user_id`, the two single-element `users`
lists collapse onto one record whose fields are the union of both. -/
theorem keyed_collapse :
    merge_data (UniqueRegexpAssembler [(users_path_regexp, "user_id")])
      [Doc.map [("users", Doc.seq [Doc.map [("user_id", Doc.int 123), ("name", Doc.str "Alex")]])],
       Doc.map [("users", Doc.seq [Doc.map [("user_id", Doc.int 123), ("surname", Doc.str "Morgan")]])]]
      = .ok (.map [("users",
          Doc.seq [Doc.map [("user_id", Doc.int 123), ("name", Doc.str "Alex"),
                            ("surname", Doc.str "Morgan")]])]) := rfl

/-- C5: under the Default Strategy `{c: [1, 2]}` and `{c: [3]}` merge to
`{c: [1, 2, 3]}`, and the three content+path identity tokens involved are
pairwise distinct (which is what makes the sequences concatenate instead of
collapsing). -/
theorem sequence_concat :
    merge_data DefaultAssembler
      [Doc.map [("c", Doc.seq [Doc.int 1, Doc.int 2])],
       Doc.map [("c", Doc.seq [Doc.int 3])]]
      = .ok (.map [("c", Doc.seq [Doc.int 1, Doc.int 2, Doc.int 3])])
    ∧ default_converter (Doc.int 1) "/c/_0_/" ≠ default_converter (Doc.int 2) "/c/_1_/"
    ∧ default_converter (Doc.int 1) "/c/_0_/" ≠ default_converter (Doc.int 3) "/c/_0_/"
    ∧ default_converter (Doc.int 2) "/c/_1_/" ≠ default_converter (Doc.int 3) "/c/_0_/" :=
  ⟨rfl, by decide, by decide, by decide⟩

/-- C10: `finder` accepts the empty key set vacuously, so an empty dict is
reconstructed as an empty list: merging `{a: {}}` with `{a: {}}` under the
Default Strategy returns `{a: []}`, not `{a: {}}`. -/
theorem empty_map_to_seq :
    default_finder [] = true
    ∧ get_regular_data DefaultAssembler (.map []) = .seq []
    ∧ merge_data DefaultAssembler [Doc.map [("a", Doc.map [])], Doc.map [("a", Doc.map [])]]
        = .ok (.map [("a", Doc.seq [])])
    ∧ merge_data DefaultAssembler [Doc.map [("a", Doc.map [])], Doc.map [("a", Doc.map [])]]
        ≠ .ok (.map [("a", Doc.map [])]) := by
  refine ⟨rfl, rfl, rfl, ?_⟩
  intro h
  have h2 : (Except.ok (Doc.map [("a", Doc.seq [])]) : Except MergeError Doc)
      = Except.ok (Doc.map [("a", Doc.map [])]) := h
  simp at h2

/-- C7: every token the Default Strategy's `converter` can produce matches
the fixed lexical pattern (an underscore, 64 lowercase hex digits, an
underscore), and `finder` accepts every non-empty key set consisting only
of such tokens. -/
theorem token_pattern_recognized :
    (∀ (d : Doc) (path : String), token_match (default_converter d path) = true)
    ∧ (∀ keys : List String, keys ≠ [] →
        (∀ k ∈ keys, ∃ d path, k = default_converter d path) →
        default_finder keys = true) := by
  refine ⟨token_match_converter, ?_⟩
  intro keys _hne hall
  unfold default_finder
  rw [List.all_eq_true]
  intro k hk
  obtain ⟨d, p, rfl⟩ := hall k hk
  exact token_match_converter d p

theorem token_pattern_recognized_witness :
    default_finder [default_converter Doc.none "/"] = true :=
  token_pattern_recognized.2 [default_converter Doc.none "/"] (by simp)
    (fun k hk => ⟨Doc.none, "/", by simpa using hk⟩)

/-- C6: on two non-dict values the Default Strategy's `handler` returns the
second exactly when it is a non-empty value in the claim's sense (non-null,
non-empty string, non-zero-length collection, truthy scalar), and the first
otherwise; consequently `{a: 1}` merged with `{a: 2}` gives `{a: 2}` and
`{a: 1}` merged with `{a: None}` gives `{a: 1}`. -/
theorem resolve_nonempty_wins :
    (∀ a b : Doc, is_dict a = false → is_dict b = false →
      default_handler a b = if spec_nonempty b then b else a)
    ∧ merge_data DefaultAssembler [Doc.map [("a", Doc.int 1)], Doc.map [("a", Doc.int 2)]]
        = .ok (.map [("a", Doc.int 2)])
    ∧ merge_data DefaultAssembler [Doc.map [("a", Doc.int 1)], Doc.map [("a", Doc.none)]]
        = .ok (.map [("a", Doc.int 1)]) := by
  refine ⟨?_, rfl, rfl⟩
  intro a b _ _
  unfold default_handler
  rw [py_truthy_eq_spec_nonempty]

theorem resolve_nonempty_wins_witness :
    default_handler (Doc.int 1) (Doc.int 2)
      = if spec_nonempty (Doc.int 2) then Doc.int 2 else Doc.int 1 :=
  resolve_nonempty_wins.1 (Doc.int 1) (Doc.int 2) rfl rfl

/-- C8: the construction-time validation succeeds exactly when the three
methods declare 2, 1 and 2 parameters (not counting `self`; with `self`,
3, 2 and 3); any other declared count makes construction fail with the
`AssemblerImplementationError` (the spec's `AssemblerContractError` class),
before any merge is attempted.  In particular the Default arities pass and
a `handler`/`resolve` with zero declared parameters besides `self` fails. -/
theorem assembler_arity_validation :
    (∀ c f h : Nat,
      assembler_init_check (c + 1) (f + 1) (h + 1) = .ok () ↔ (c = 2 ∧ f = 1 ∧ h = 2))
    ∧ (∀ c f h : Nat, assembler_init_check c f h = .ok () ∨
        ∃ m exp cur, assembler_init_check c f h
          = .error (.assemblerImplementationError m exp cur))
    ∧ assembler_init_check 3 2 3 = .ok ()
    ∧ (∃ m exp cur, assembler_init_check 3 2 1
        = .error (.assemblerImplementationError m exp cur)) := by
  refine ⟨?_, ?_, rfl, ⟨"handler", 3, 1, rfl⟩⟩
  · intro c f h
    rw [assembler_init_check_eq]
    split_ifs <;> simp_all
  · intro c f h
    rw [assembler_init_check_eq]
    split_ifs
    · exact Or.inr ⟨"converter", 3, c, rfl⟩
    · exact Or.inr ⟨"finder", 2, f, rfl⟩
    · exact Or.inr ⟨"handler", 3, h, rfl⟩
    · exact Or.inl rfl

/-- C3 counterexample: the claim's Map / Sequence / Scalar-family kind
count predicts success for `merge(1, "x")` (one kind, the scalar family)
but the code fails with `TypeError` because `int` and `str` are distinct
runtime types; and it predicts failure for `merge(0, {a: 1})` (Scalar and
Map both present among non-absent, non-empty documents) but the code
succeeds because `0` is falsy and is ignored by the check. -/
theorem type_consistency_cex :
    (distinct_spec_kinds [Doc.int 1, Doc.str "x"]).length ≤ 1
    ∧ merge_data DefaultAssembler [Doc.int 1, Doc.str "x"]
        = .error (.typeError [PyType.int, PyType.str])
    ∧ 1 < (distinct_spec_kinds [Doc.int 0, Doc.map [("a", Doc.int 1)]]).length
    ∧ merge_data DefaultAssembler [Doc.int 0, Doc.map [("a", Doc.int 1)]]
        = .ok (.map [("a", Doc.int 1)]) :=
  ⟨by decide, rfl, by decide, rfl⟩

/-- C3 as amended: for at least two input documents, `merge_data` collects
the distinct Python runtime types of the truthy documents (falsy ones —
`None`, `False`, `0`, empty string, empty collections — are ignored) and
fails with the `TypeError` naming exactly those types iff more than one
distinct type is present; in particular `merge({a:1}, "string")` and
`merge({a:1}, [1,2])` both fail with that error. -/
theorem type_consistency_amended :
    (∀ (asm : AbstractAssembler) (objs : List Doc), 2 ≤ objs.length →
      (1 < (distinct_py_types objs).length →
        merge_data asm objs = .error (.typeError (distinct_py_types objs)))
      ∧ ((distinct_py_types objs).length ≤ 1 → ∃ d, merge_data asm objs = .ok d))
    ∧ merge_data DefaultAssembler [Doc.map [("a", Doc.int 1)], Doc.str "string"]
        = .error (.typeError [PyType.dict, PyType.str])
    ∧ merge_data DefaultAssembler [Doc.map [("a", Doc.int 1)], Doc.seq [Doc.int 1, Doc.int 2]]
        = .error (.typeError [PyType.dict, PyType.list]) := by
  refine ⟨?_, rfl, rfl⟩
  intro asm objs h
  have hlt : ¬ objs.length < 2 := by omega
  constructor
  · intro hgt
    unfold merge_data
    rw [if_neg hlt, if_pos hgt]
  · intro hle
    have hng : ¬ 1 < (distinct_py_types objs).length := by omega
    cases objs with
    | nil => simp at h
    | cons o rest =>
        exact ⟨_, by unfold merge_data; rw [if_neg hlt, if_neg hng]⟩

theorem type_consistency_amended_witness :
    ∃ d, merge_data DefaultAssembler [Doc.int 1, Doc.int 2] = .ok d :=
  (type_consistency_amended.1 DefaultAssembler [Doc.int 1, Doc.int 2] (by decide)).2
    (by decide)

theorem list_map_self {α : Type} (l : List α) (f : α → α) (h : ∀ a ∈ l, f a = a) :
    l.map f = l := by
  induction l with
  | nil => rfl
  | cons a rest ih =>
      simp only [List.map_cons, h a (List.mem_cons_self a rest)]
      rw [ih (fun b hb => h b (List.mem_cons_of_mem a hb))]

theorem string_contains_iff (l : List String) (k : String) :
    l.contains k = true ↔ k ∈ l := by
  induction l with
  | nil => simp
  | cons a rest ih => simp [List.contains_cons] at ih ⊢

theorem keys_nodup_cons (k : String) (l : List String) :
    keys_nodup (k :: l) = true ↔ (k ∉ l ∧ keys_nodup l = true) := by
  simp only [keys_nodup, Bool.and_eq_true, Bool.not_eq_true']
  constructor
  · rintro ⟨hc, hl⟩
    refine ⟨fun hm => ?_, hl⟩
    rw [(string_contains_iff l k).mpr hm] at hc
    exact Bool.noConfusion hc
  · rintro ⟨hm, hl⟩
    refine ⟨?_, hl⟩
    cases hc : l.contains k with
    | false => rfl
    | true => exact absurd ((string_contains_iff l k).mp hc) hm

theorem lookup_entry_eq_none_iff (es : List (String × Doc)) (k : String) :
    lookup_entry es k = Option.none ↔ k ∉ es.map (fun p => p.1) := by
  induction es with
  | nil => simp [lookup_entry]
  | cons p rest ih =>
      obtain ⟨k0, v0⟩ := p
      by_cases h : k0 = k
      · subst h
        simp [lookup_entry]
      · simp [lookup_entry, h, ih, Ne.symm h]

theorem lookup_entry_append (es1 es2 : List (String × Doc)) (k : String) :
    lookup_entry (es1 ++ es2) k =
      match lookup_entry es1 k with
      | some v => some v
      | Option.none => lookup_entry es2 k := by
  induction es1 with
  | nil => simp [lookup_entry]
  | cons p rest ih =>
      obtain ⟨k0, v0⟩ := p
      by_cases h : k0 = k
      · simp [lookup_entry, h]
      · simp [lookup_entry, h, ih]

theorem lookup_entry_self (es : List (String × Doc)) (p : String × Doc)
    (hnd : keys_nodup (es.map (fun q => q.1)) = true) (hp : p ∈ es) :
    lookup_entry es p.1 = some p.2 := by
  induction es with
  | nil => cases hp
  | cons q rest ih =>
      obtain ⟨k0, v0⟩ := q
      rw [List.map_cons, keys_nodup_cons] at hnd
      obtain ⟨hnotin, hnd'⟩ := hnd
      rcases List.mem_cons.mp hp with heq | hmem
      · subst heq
        simp [lookup_entry]
      · have hne : k0 ≠ p.1 := by
          intro h
          exact hnotin (h ▸ List.mem_map_of_mem (fun q => q.1) hmem)
        simp only [lookup_entry, if_neg hne]
        exact ih hnd' hmem

theorem dict_update_fresh (es : List (String × Doc)) (k : String) (v : Doc)
    (h : lookup_entry es k = Option.none) :
    dict_update es k v = es ++ [(k, v)] := by
  simp [dict_update, h]

theorem dict_update_present (es : List (String × Doc)) (k : String) (v : Doc)
    (h : (lookup_entry es k).isSome = true) :
    dict_update es k v = es.map (fun p => if p.1 = k then (k, v) else p) := by
  simp [dict_update, h]

theorem lookup_entry_map_update_ne (es : List (String × Doc)) (k : String) (v : Doc)
    (k' : String) (hne : k' ≠ k) :
    lookup_entry (es.map (fun p => if p.1 = k then (k, v) else p)) k' = lookup_entry es k' := by
  induction es with
  | nil => rfl
  | cons p rest ih =>
      obtain ⟨k0, v0⟩ := p
      rw [List.map_cons]
      by_cases h0 : k0 = k
      · subst h0
        have hp : (if ((k0, v0) : String × Doc).1 = k0 then (k0, v) else (k0, v0)) = (k0, v) :=
          if_pos rfl
        rw [hp]
        have h1 : ¬ k0 = k' := fun hh => hne hh.symm
        simp only [lookup_entry, if_neg h1]
        exact ih
      · have hp : (if ((k0, v0) : String × Doc).1 = k then (k, v) else (k0, v0)) = (k0, v0) :=
          if_neg h0
        rw [hp]
        by_cases h1 : k0 = k'
        · simp only [lookup_entry, if_pos h1]
        · simp only [lookup_entry, if_neg h1]
          exact ih

theorem lookup_entry_dict_update_ne (es : List (String × Doc)) (k : String) (v : Doc)
    (k' : String) (hne : k' ≠ k) :
    lookup_entry (dict_update es k v) k' = lookup_entry es k' := by
  cases hl : lookup_entry es k with
  | some v0 =>
      rw [dict_update_present es k v (by rw [hl]; rfl)]
      exact lookup_entry_map_update_ne es k v k' hne
  | none =>
      rw [dict_update_fresh es k v hl, lookup_entry_append]
      cases hl' : lookup_entry es k' with
      | some v1 => rfl
      | none => simp [lookup_entry, Ne.symm hne]

theorem list_map_congr {α β : Type} (l : List α) (f g : α → β)
    (h : ∀ a ∈ l, f a = g a) : l.map f = l.map g := by
  induction l with
  | nil => rfl
  | cons a rest ih =>
      simp only [List.map_cons, h a (List.mem_cons_self a rest)]
      rw [ih (fun b hb => h b (List.mem_cons_of_mem a hb))]

theorem merge_entry_value_nil (asm : AbstractAssembler) (es1 : List (String × Doc))
    (p : String × Doc) : merge_entry_value asm es1 [] p = p := rfl

theorem lookup_entry_isSome_of_mem (es : List (String × Doc)) (p : String × Doc)
    (hp : p ∈ es) : (lookup_entry es p.1).isSome = true := by
  induction es with
  | nil => cases hp
  | cons q rest ih =>
      obtain ⟨k0, v0⟩ := q
      by_cases h : k0 = p.1
      · simp [lookup_entry, h]
      · rcases List.mem_cons.mp hp with heq | hmem
        · exact absurd (heq ▸ rfl) h
        · simp only [lookup_entry, if_neg h]
          exact ih hmem

theorem merge_entry_value_cons_ne (asm : AbstractAssembler)
    (es1 rest : List (String × Doc)) (k : String) (v2 : Doc) (p : String × Doc)
    (hne : p.1 ≠ k) :
    merge_entry_value asm es1 ((k, v2) :: rest) p = merge_entry_value asm es1 rest p := by
  simp only [merge_entry_value, lookup_entry, if_neg (fun hh : k = p.1 => hne hh.symm)]

theorem merge_dict_entries_spec (asm : AbstractAssembler) (es1 : List (String × Doc)) :
    ∀ (rest2 acc : List (String × Doc)),
      keys_nodup (rest2.map (fun p => p.1)) = true →
      (∀ k, k ∈ rest2.map (fun p => p.1) →
        ((lookup_entry acc k).isSome = true ↔ (lookup_entry es1 k).isSome = true)) →
      merge_dict_entries asm es1 acc rest2 =
        acc.map (merge_entry_value asm es1 rest2) ++
          rest2.filter (fun q => (lookup_entry es1 q.1).isNone) := by
  intro rest2
  induction rest2 with
  | nil =>
      intro acc _ _
      simp only [merge_dict_entries, List.filter_nil, List.append_nil]
      exact (list_map_self acc _ (fun p _ => merge_entry_value_nil asm es1 p)).symm
  | cons hd rest ihr =>
      obtain ⟨k, v2⟩ := hd
      intro acc hnd hinv
      rw [List.map_cons, keys_nodup_cons] at hnd
      obtain ⟨hknotin, hnd'⟩ := hnd
      have hlkrest : lookup_entry rest k = Option.none :=
        (lookup_entry_eq_none_iff rest k).mpr hknotin
      have hinv' : ∀ (x : Doc) (hupd : ∀ k', k' ≠ k →
          lookup_entry (dict_update acc k x) k' = lookup_entry acc k'),
          ∀ k', k' ∈ rest.map (fun p => p.1) →
          ((lookup_entry (dict_update acc k x) k').isSome = true ↔
            (lookup_entry es1 k').isSome = true) := by
        intro x hupd k' hk'
        have hne : k' ≠ k := fun hh => hknotin (hh ▸ hk')
        rw [hupd k' hne]
        exact hinv k' (List.mem_cons_of_mem k hk')
      cases h1 : lookup_entry es1 k with
      | some v1 =>
          have hacc : (lookup_entry acc k).isSome = true :=
            (hinv k (List.mem_cons_self k _)).mpr (by rw [h1]; rfl)
          simp only [merge_dict_entries, h1]
          rw [ihr (dict_update acc k (merge_converted_data asm v1 v2)) hnd'
            (hinv' _ (fun k' hne => lookup_entry_dict_update_ne acc k _ k' hne))]
          rw [dict_update_present acc k _ hacc, List.map_map]
          have hfilter : ((k, v2) :: rest).filter (fun q => (lookup_entry es1 q.1).isNone)
              = rest.filter (fun q => (lookup_entry es1 q.1).isNone) := by
            rw [List.filter_cons]
            have : ((lookup_entry es1 ((k, v2) : String × Doc).1).isNone) = false := by
              rw [show lookup_entry es1 ((k, v2) : String × Doc).1 = some v1 from h1]
              rfl
            rw [this]
            simp
          rw [hfilter]
          congr 1
          apply list_map_congr
          intro p hp
          by_cases hpk : p.1 = k
          · have hupd : ((merge_entry_value asm es1 rest) ∘
                (fun q => if q.1 = k then (k, merge_converted_data asm v1 v2) else q)) p
                = (k, merge_converted_data asm v1 v2) := by
              simp only [Function.comp, if_pos hpk]
              simp [merge_entry_value, hlkrest]
            rw [hupd]
            simp only [merge_entry_value, lookup_entry, if_pos hpk.symm]
            rw [show lookup_entry es1 p.1 = some v1 from hpk ▸ h1]
            rw [hpk]
          · have hupd : ((merge_entry_value asm es1 rest) ∘
                (fun q => if q.1 = k then (k, merge_converted_data asm v1 v2) else q)) p
                = merge_entry_value asm es1 rest p := by
              simp only [Function.comp, if_neg hpk]
            rw [hupd, merge_entry_value_cons_ne asm es1 rest k v2 p hpk]
      | none =>
          have haccn : lookup_entry acc k = Option.none := by
            cases hacc : lookup_entry acc k with
            | none => rfl
            | some v0 =>
                have hh := (hinv k (List.mem_cons_self k _)).mp (by rw [hacc]; rfl)
                rw [h1] at hh
                exact absurd hh (by simp)
          simp only [merge_dict_entries, h1]
          rw [dict_update_fresh acc k v2 haccn]
          have hupd_eq : ∀ k', k' ≠ k →
              lookup_entry (acc ++ [(k, v2)]) k' = lookup_entry acc k' := by
            intro k' hne
            rw [lookup_entry_append]
            cases hl' : lookup_entry acc k' with
            | some v0 => rfl
            | none =>
                have hne2 : ¬ k = k' := fun hh => hne hh.symm
                simp [lookup_entry, hne2]
          rw [show (acc ++ [(k, v2)] : List (String × Doc)) = dict_update acc k v2 from
            (dict_update_fresh acc k v2 haccn).symm] at hupd_eq ⊢
          rw [ihr (dict_update acc k v2) hnd' (hinv' v2 hupd_eq)]
          rw [dict_update_fresh acc k v2 haccn, List.map_append]
          have hsing : ([(k, v2)] : List (String × Doc)).map (merge_entry_value asm es1 rest)
              = [(k, v2)] := by
            simp only [List.map_cons, List.map_nil]
            rw [show merge_entry_value asm es1 rest (k, v2) = (k, v2) from by
              simp [merge_entry_value, hlkrest]]
          rw [hsing]
          have hfilter : ((k, v2) :: rest).filter (fun q => (lookup_entry es1 q.1).isNone)
              = (k, v2) :: rest.filter (fun q => (lookup_entry es1 q.1).isNone) := by
            rw [List.filter_cons]
            have : ((lookup_entry es1 ((k, v2) : String × Doc).1).isNone) = true := by
              rw [show lookup_entry es1 ((k, v2) : String × Doc).1 = Option.none from h1]
              rfl
            rw [this]
            simp
          rw [hfilter]
          have hmapacc : acc.map (merge_entry_value asm es1 rest)
              = acc.map (merge_entry_value asm es1 ((k, v2) :: rest)) := by
            apply list_map_congr
            intro p hp
            have hpk : p.1 ≠ k := by
              intro hh
              have hsome := lookup_entry_isSome_of_mem acc p hp
              rw [hh, haccn] at hsome
              exact Bool.noConfusion hsome
            exact (merge_entry_value_cons_ne asm es1 rest k v2 p hpk).symm
          rw [← hmapacc]
          simp [List.append_assoc]

/-- C2: merging two converted dicts (with the unique keys every Python dict
has) yields exactly the dict claim C2 describes — the first dict's keys
first in their original order, values recursively merged under shared keys,
then the second dict's fresh keys in its order with values unchanged — and
whenever at least one side is not a dict the result is exactly
`assembler.handler` (the spec's `strategy.resolve`) applied to the pair. -/
theorem merge_converted_semantics :
    (∀ (asm : AbstractAssembler) (es1 es2 : List (String × Doc)),
      keys_nodup (es1.map (fun p => p.1)) = true →
      keys_nodup (es2.map (fun p => p.1)) = true →
      merge_converted_data asm (.map es1) (.map es2) = .map (merge_spec_entries asm es1 es2))
    ∧ (∀ (asm : AbstractAssembler) (a b : Doc),
        is_dict a = false ∨ is_dict b = false →
        merge_converted_data asm a b = asm.handler a b) := by
  constructor
  · intro asm es1 es2 hnd1 hnd2
    show Doc.map (merge_dict_entries asm es1 es1 es2) = _
    rw [merge_dict_entries_spec asm es1 es2 es1 hnd2 (fun k _ => Iff.rfl)]
    unfold merge_spec_entries
    congr 1
    congr 1
    apply list_map_congr
    intro p hp
    have hself : lookup_entry es1 p.1 = some p.2 := lookup_entry_self es1 p hnd1 hp
    cases h2 : lookup_entry es2 p.1 with
    | some v2 => simp [merge_entry_value, h2, hself]
    | none => simp [merge_entry_value, h2]
  · intro asm a b h
    cases a <;> cases b <;>
      first
        | rfl
        | (rcases h with h | h <;> exact Bool.noConfusion h)

theorem merge_converted_semantics_witness :
    merge_converted_data DefaultAssembler (.map [("x", Doc.int 1)])
        (.map [("x", Doc.int 2), ("y", Doc.int 3)])
      = .map (merge_spec_entries DefaultAssembler [("x", Doc.int 1)]
          [("x", Doc.int 2), ("y", Doc.int 3)])
    ∧ merge_converted_data DefaultAssembler (Doc.int 1) (Doc.int 2)
      = DefaultAssembler.handler (Doc.int 1) (Doc.int 2) :=
  ⟨merge_converted_semantics.1 DefaultAssembler _ _ (by decide) (by decide),
   merge_converted_semantics.2 DefaultAssembler (Doc.int 1) (Doc.int 2) (Or.inl rfl)⟩

theorem convert_dict_entries_eq (asm : AbstractAssembler) (path : String) :
    ∀ (es acc : List (String × Doc)),
      keys_nodup (es.map (fun p => p.1)) = true →
      (∀ k ∈ es.map (fun p => p.1), lookup_entry acc k = Option.none) →
      convert_dict_entries asm path es acc = acc ++ conv_entries_direct asm path es := by
  intro es
  induction es with
  | nil =>
      intro acc _ _
      simp [convert_dict_entries, conv_entries_direct]
  | cons p rest ih =>
      obtain ⟨k, v⟩ := p
      intro acc hnd hfresh
      rw [List.map_cons, keys_nodup_cons] at hnd
      obtain ⟨hknotin, hnd'⟩ := hnd
      have hacc : lookup_entry acc k = Option.none := hfresh k (List.mem_cons_self _ _)
      simp only [convert_dict_entries]
      rw [dict_update_fresh acc k _ hacc]
      rw [ih (acc ++ [(k, get_converted_data asm v (path ++ k ++ "/"))]) hnd' ?fresh2]
      case fresh2 =>
        intro k' hk'
        have hne2 : ¬ k = k' := fun hh => hknotin (hh ▸ hk')
        rw [lookup_entry_append, hfresh k' (List.mem_cons_of_mem _ hk')]
        simp [lookup_entry, hne2]
      simp [conv_entries_direct, List.append_assoc]

theorem convert_list_items_eq (asm : AbstractAssembler) (path : String) :
    ∀ (items : List Doc) (i : Nat) (acc : List (String × Doc)),
      keys_nodup (item_tokens asm items path i) = true →
      (∀ k ∈ item_tokens asm items path i, lookup_entry acc k = Option.none) →
      convert_list_items asm path items i acc = acc ++ conv_items_direct asm path items i := by
  intro items
  induction items with
  | nil =>
      intro i acc _ _
      simp [convert_list_items, conv_items_direct]
  | cons item rest ih =>
      intro i acc hnd hfresh
      simp only [item_tokens] at hnd hfresh
      rw [keys_nodup_cons] at hnd
      obtain ⟨hknotin, hnd'⟩ := hnd
      have hacc : lookup_entry acc (asm.converter item (item_path path i)) = Option.none :=
        hfresh _ (List.mem_cons_self _ _)
      simp only [convert_list_items]
      rw [dict_update_fresh acc _ _ hacc]
      rw [ih (i + 1)
        (acc ++ [(asm.converter item (item_path path i),
          get_converted_data asm item (item_path path i))]) hnd' ?fresh3]
      case fresh3 =>
        intro k' hk'
        have hne2 : ¬ asm.converter item (item_path path i) = k' :=
          fun hh => hknotin (hh ▸ hk')
        rw [lookup_entry_append, hfresh k' (List.mem_cons_of_mem _ hk')]
        simp [lookup_entry, hne2]
      simp [conv_items_direct, List.append_assoc]

theorem conv_entries_direct_keys (asm : AbstractAssembler) (path : String)
    (es : List (String × Doc)) :
    (conv_entries_direct asm path es).map (fun p => p.1) = es.map (fun p => p.1) := by
  simp [conv_entries_direct, List.map_map]

theorem conv_items_direct_keys (asm : AbstractAssembler) (path : String) :
    ∀ (items : List Doc) (i : Nat),
      (conv_items_direct asm path items i).map (fun p => p.1) = item_tokens asm items path i := by
  intro items
  induction items with
  | nil => intro i; rfl
  | cons item rest ih =>
      intro i
      simp only [conv_items_direct, item_tokens, List.map_cons, ih (i + 1)]

theorem regular_dict_entries_eq_map (asm : AbstractAssembler) :
    ∀ es : List (String × Doc),
      regular_dict_entries asm es = es.map (fun p => (p.1, get_regular_data asm p.2)) := by
  intro es
  induction es with
  | nil => rfl
  | cons p rest ih =>
      obtain ⟨k, v⟩ := p
      simp only [regular_dict_entries, List.map_cons, ih]

theorem regular_seq_values_eq_map (asm : AbstractAssembler) :
    ∀ es : List (String × Doc),
      regular_seq_values asm es = es.map (fun p => get_regular_data asm p.2) := by
  intro es
  induction es with
  | nil => rfl
  | cons p rest ih =>
      obtain ⟨k, v⟩ := p
      simp only [regular_seq_values, List.map_cons, ih]

theorem item_tokens_finder (items : List Doc) (path : String) :
    ∀ i : Nat, default_finder (item_tokens DefaultAssembler items path i) = true := by
  induction items with
  | nil => intro i; rfl
  | cons item rest ih =>
      intro i
      simp only [item_tokens, default_finder, List.all_cons]
      rw [show (DefaultAssembler.converter item (item_path path i))
        = default_converter item (item_path path i) from rfl]
      rw [token_match_converter]
      exact ih (i + 1)

theorem entries_wf_mem : ∀ es : List (String × Doc), entries_wf es = true →
    ∀ p ∈ es, doc_wf p.2 = true := by
  intro es
  induction es with
  | nil => intro _ p hp; cases hp
  | cons q rest ih =>
      obtain ⟨k, v⟩ := q
      intro h p hp
      simp only [entries_wf, Bool.and_eq_true] at h
      rcases List.mem_cons.mp hp with heq | hmem
      · rw [heq]; exact h.1
      · exact ih h.2 p hmem

theorem nrm_entries_mem (asm : AbstractAssembler) :
    ∀ es : List (String × Doc), nrm_entries asm es = true →
    ∀ p ∈ es, no_recognized_map asm p.2 = true := by
  intro es
  induction es with
  | nil => intro _ p hp; cases hp
  | cons q rest ih =>
      obtain ⟨k, v⟩ := q
      intro h p hp
      simp only [nrm_entries, Bool.and_eq_true] at h
      rcases List.mem_cons.mp hp with heq | hmem
      · rw [heq]; exact h.1
      · exact ih h.2 p hmem

theorem cto_entries_mem (asm : AbstractAssembler) :
    ∀ (es : List (String × Doc)) (path : String), cto_entries asm es path = true →
    ∀ p ∈ es, conv_tokens_ok asm p.2 (path ++ p.1 ++ "/") = true := by
  intro es
  induction es with
  | nil => intro _ _ p hp; cases hp
  | cons q rest ih =>
      obtain ⟨k, v⟩ := q
      intro path h p hp
      simp only [cto_entries, Bool.and_eq_true] at h
      rcases List.mem_cons.mp hp with heq | hmem
      · rw [heq]; exact h.1
      · exact ih path h.2 p hmem

theorem roundtrip_aux (n : Nat) : ∀ (d : Doc) (path : String),
    sizeOf d ≤ n →
    doc_wf d = true →
    no_recognized_map DefaultAssembler d = true →
    conv_tokens_ok DefaultAssembler d path = true →
    get_regular_data DefaultAssembler (get_converted_data DefaultAssembler d path) = d := by
  induction n with
  | zero =>
      intro d path hsz _ _ _
      exact absurd hsz (by cases d <;> simp)
  | succ n ih =>
      intro d path hsz hwf hnrm htok
      cases d with
      | none => rfl
      | bool b => rfl
      | int m => rfl
      | str s => rfl
      | map es =>
          have hszes : sizeOf es ≤ n := by
            have hs : sizeOf (Doc.map es) = 1 + sizeOf es := by simp
            omega
          simp only [doc_wf, Bool.and_eq_true] at hwf
          obtain ⟨hnodup, hewf⟩ := hwf
          simp only [no_recognized_map, Bool.and_eq_true, Bool.not_eq_true'] at hnrm
          obtain ⟨hfind, henrm⟩ := hnrm
          simp only [conv_tokens_ok] at htok
          have hconv : get_converted_data DefaultAssembler (.map es) path
              = .map (conv_entries_direct DefaultAssembler path es) := by
            show Doc.map (convert_dict_entries DefaultAssembler path es []) = _
            rw [convert_dict_entries_eq DefaultAssembler path es [] hnodup (fun k _ => rfl)]
            simp
          rw [hconv]
          simp only [get_regular_data]
          rw [conv_entries_direct_keys, hfind]
          simp only [Bool.false_eq_true, if_false]
          rw [regular_dict_entries_eq_map]
          unfold conv_entries_direct
          rw [List.map_map]
          congr 1
          apply list_map_self
          intro p hp
          have hszp : sizeOf p.2 ≤ n := by
            have h1 := List.sizeOf_lt_of_mem hp
            have h2 : sizeOf p = 1 + sizeOf p.1 + sizeOf p.2 := by
              obtain ⟨a, b⟩ := p
              simp
            omega
          have hrec := ih p.2 (path ++ p.1 ++ "/") hszp (entries_wf_mem es hewf p hp)
            (nrm_entries_mem _ es henrm p hp) (cto_entries_mem _ es path htok p hp)
          simp only [Function.comp]
          rw [hrec]
      | seq items =>
          have hszit : ∀ it ∈ items, sizeOf it ≤ n := by
            intro it hit
            have h1 := List.sizeOf_lt_of_mem hit
            have h2 : sizeOf (Doc.seq items) = 1 + sizeOf items := by simp
            omega
          simp only [doc_wf] at hwf
          simp only [no_recognized_map] at hnrm
          simp only [conv_tokens_ok, Bool.and_eq_true] at htok
          obtain ⟨htnd, hcto⟩ := htok
          have hconv : get_converted_data DefaultAssembler (.seq items) path
              = .map (conv_items_direct DefaultAssembler path items 0) := by
            show Doc.map (convert_list_items DefaultAssembler path items 0 []) = _
            rw [convert_list_items_eq DefaultAssembler path items 0 [] htnd (fun k _ => rfl)]
            simp
          rw [hconv]
          simp only [get_regular_data]
          rw [conv_items_direct_keys]
          rw [show DefaultAssembler.finder (item_tokens DefaultAssembler items path 0)
            = default_finder (item_tokens DefaultAssembler items path 0) from rfl]
          rw [item_tokens_finder items path 0]
          simp only [if_true]
          rw [regular_seq_values_eq_map]
          congr 1
          have key : ∀ (its : List Doc), (∀ it ∈ its, sizeOf it ≤ n) →
              items_wf its = true → nrm_items DefaultAssembler its = true →
              ∀ i, cto_items DefaultAssembler its path i = true →
              (conv_items_direct DefaultAssembler path its i).map
                (fun p => get_regular_data DefaultAssembler p.2) = its := by
            intro its
            induction its with
            | nil => intro _ _ _ i _; rfl
            | cons it rest ihl =>
                intro hsz2 hwf2 hnrm2 i htok2
                simp only [items_wf, Bool.and_eq_true] at hwf2
                simp only [nrm_items, Bool.and_eq_true] at hnrm2
                simp only [cto_items, Bool.and_eq_true] at htok2
                simp only [conv_items_direct, List.map_cons]
                rw [ih it (item_path path i) (hsz2 it (List.mem_cons_self _ _))
                  hwf2.1 hnrm2.1 htok2.1]
                rw [ihl (fun x hx => hsz2 x (List.mem_cons_of_mem _ hx)) hwf2.2 hnrm2.2
                  (i + 1) htok2.2]
          exact key items hszit hwf hnrm 0 hcto

/-- C1: for every Document containing no dict whose key set the Default
Strategy's `finder` accepts, reconstructing the conversion yields the
document again: `_get_regular_data(_get_converted_data(d, '/', asm), asm) = d`.
Two well-formedness side conditions accompany the claim's own hypothesis:
every dict in `d` has pairwise-distinct keys (true of every Python dict),
and the tokens the strategy generates within each list are pairwise
distinct — the token-collision case the spec itself assigns to the strategy
("accepted as a strategy responsibility, not engine-enforced"). -/
theorem roundtrip_default (d : Doc)
    (hwf : doc_wf d = true)
    (hnrm : no_recognized_map DefaultAssembler d = true)
    (htok : conv_tokens_ok DefaultAssembler d "/" = true) :
    get_regular_data DefaultAssembler (get_converted_data DefaultAssembler d "/") = d :=
  roundtrip_aux (sizeOf d) d "/" (Nat.le_refl _) hwf hnrm htok

theorem roundtrip_default_witness :
    doc_wf (Doc.map [("c", Doc.seq [Doc.int 1, Doc.int 2])]) = true
    ∧ no_recognized_map DefaultAssembler (Doc.map [("c", Doc.seq [Doc.int 1, Doc.int 2])]) = true
    ∧ conv_tokens_ok DefaultAssembler (Doc.map [("c", Doc.seq [Doc.int 1, Doc.int 2])]) "/" = true
    ∧ get_regular_data DefaultAssembler
        (get_converted_data DefaultAssembler (Doc.map [("c", Doc.seq [Doc.int 1, Doc.int 2])]) "/")
        = Doc.map [("c", Doc.seq [Doc.int 1, Doc.int 2])] :=
  ⟨rfl, rfl, rfl, roundtrip_default _ rfl rfl rfl⟩
